import Mathlib

/-!
Verification development for the ThingsBoard download/calibration client
(`descargar_v0.py`).  The definitions below are a shallow embedding of the
functions of the source file: timestamps are natural numbers (epoch
milliseconds), CSV rows are association lists, numeric sensor values are
rationals, and every fallible operation returns `Except`.  The remote
ThingsBoard API is modelled as a finite list of samples; a time-series
query returns, per requested key, the samples of that key inside the
window, in ascending timestamp order, truncated to the row limit.
-/

namespace Descarga

/-! ## Generic insertion sort (model of Python's sorted) -/

def insertLeBy (le : α → α → Bool) (a : α) : List α → List α
  | [] => [a]
  | b :: l => if le a b then a :: b :: l else b :: insertLeBy le a l

def sortLeBy (le : α → α → Bool) : List α → List α
  | [] => []
  | a :: l => insertLeBy le a (sortLeBy le l)

theorem mem_insertLeBy (le : α → α → Bool) (a x : α) (l : List α) :
    x ∈ insertLeBy le a l ↔ x = a ∨ x ∈ l := by
  induction l with
  | nil => simp [insertLeBy]
  | cons b l ih =>
      by_cases h : le a b = true
      · simp [insertLeBy, h]
      · simp only [insertLeBy, if_neg h, List.mem_cons, ih]
        tauto

theorem mem_sortLeBy (le : α → α → Bool) (x : α) (l : List α) :
    x ∈ sortLeBy le l ↔ x ∈ l := by
  induction l with
  | nil => simp [sortLeBy]
  | cons a l ih => simp [sortLeBy, mem_insertLeBy, ih]

theorem pairwise_insertLeBy {r : α → α → Prop} (le : α → α → Bool)
    (h1 : ∀ a b, le a b = true → r a b) (h2 : ∀ a b, le a b = false → r b a)
    (h3 : ∀ a b c, r a b → r b c → r a c)
    (a : α) (l : List α) (hl : l.Pairwise r) :
    (insertLeBy le a l).Pairwise r := by
  induction l with
  | nil => simp [insertLeBy]
  | cons b l ih =>
      rcases List.pairwise_cons.mp hl with ⟨hb, hl'⟩
      by_cases h : le a b = true
      · rw [insertLeBy, if_pos h]
        refine List.pairwise_cons.mpr ⟨?_, hl⟩
        intro x hx
        rcases List.mem_cons.mp hx with rfl | hx'
        · exact h1 _ _ h
        · exact h3 _ _ _ (h1 _ _ h) (hb _ hx')
      · rw [insertLeBy, if_neg h]
        refine List.pairwise_cons.mpr ⟨?_, ih hl'⟩
        intro x hx
        rcases (mem_insertLeBy le a x l).mp hx with rfl | hx'
        · exact h2 _ _ (Bool.eq_false_iff.mpr h)
        · exact hb _ hx'

theorem pairwise_sortLeBy {r : α → α → Prop} (le : α → α → Bool)
    (h1 : ∀ a b, le a b = true → r a b) (h2 : ∀ a b, le a b = false → r b a)
    (h3 : ∀ a b c, r a b → r b c → r a c) (l : List α) :
    (sortLeBy le l).Pairwise r := by
  induction l with
  | nil => simp [sortLeBy]
  | cons a l ih => exact pairwise_insertLeBy le h1 h2 h3 a _ ih

/-! ## Remote telemetry store -/

/-- One raw telemetry sample held by the remote store: key, timestamp in
epoch milliseconds and the value as rendered by the JSON payload. -/
structure Sample where
  key : String
  ts : Nat
  value : String
deriving DecidableEq

/-- Samples of one key inside the window `[s, e]`, ascending by timestamp,
truncated to the row limit (the per-key series of a time-series response). -/
def keySeries (store : List Sample) (k : String) (s e lim : Nat) :
    List (Nat × String) :=
  (sortLeBy (fun a b => Nat.ble a.1 b.1)
    ((store.filter
        (fun x => decide (x.key = k) && decide (s ≤ x.ts) && decide (x.ts ≤ e))).map
      (fun x => (x.ts, x.value)))).take lim

/-- A time-series response for a list of keys: keys that have no data in the
window are absent from the JSON object. -/
def fetchGrouped (store : List Sample) (keys : List String) (lim s e : Nat) :
    List (String × List (Nat × String)) :=
  (keys.map (fun k => (k, keySeries store k s e lim))).filter
    (fun p => !p.2.isEmpty)

/-- Largest timestamp appearing in a response
(`max(entry['ts'] for key in data for entry in data[key])`). -/
def batchMax (b : List (String × List (Nat × String))) : Nat :=
  ((b.map (fun p => p.2.map Prod.fst)).flatten).foldr max 0

theorem le_foldr_max (x : Nat) (l : List Nat) (hx : x ∈ l) :
    x ≤ l.foldr max 0 := by
  induction l with
  | nil => cases hx
  | cons a l ih =>
      rcases List.mem_cons.mp hx with rfl | h
      · exact le_max_left _ _
      · exact le_trans (ih h) (le_max_right _ _)

theorem foldr_max_le {e : Nat} (l : List Nat) (h : ∀ x ∈ l, x ≤ e) :
    l.foldr max 0 ≤ e := by
  induction l with
  | nil => simp
  | cons a l ih =>
      simp only [List.foldr_cons]
      exact max_le (h a (by simp)) (ih (fun x hx => h x (by simp [hx])))

theorem mem_keySeries_ts {store : List Sample} {k : String} {s e lim : Nat}
    {p : Nat × String} (hp : p ∈ keySeries store k s e lim) :
    s ≤ p.1 ∧ p.1 ≤ e := by
  have h1 : p ∈ sortLeBy (fun a b => Nat.ble a.1 b.1)
      ((store.filter
          (fun x => decide (x.key = k) && decide (s ≤ x.ts) && decide (x.ts ≤ e))).map
        (fun x => (x.ts, x.value))) := List.mem_of_mem_take hp
  rw [mem_sortLeBy] at h1
  rcases List.mem_map.mp h1 with ⟨x, hx, rfl⟩
  have := List.of_mem_filter hx
  simp only [Bool.and_eq_true, decide_eq_true_eq] at this
  exact ⟨this.1.2, this.2⟩

/-- Every timestamp in a response lies inside the requested window,
hence a nonempty response has `batchMax ≥ s`. -/
theorem batchMax_ge {store : List Sample} {keys : List String} {lim s e : Nat}
    (hne : fetchGrouped store keys lim s e ≠ []) :
    s ≤ batchMax (fetchGrouped store keys lim s e) := by
  rcases List.exists_mem_of_ne_nil _ hne with ⟨⟨k, entries⟩, hk⟩
  have hent : entries ≠ [] := by
    have := List.of_mem_filter hk
    simpa [List.isEmpty_iff] using this
  rcases List.exists_mem_of_ne_nil _ hent with ⟨p, hp⟩
  have hmem : p.1 ∈ (((fetchGrouped store keys lim s e).map
      (fun p => p.2.map Prod.fst)).flatten) := by
    rw [List.mem_flatten]
    exact ⟨entries.map Prod.fst, List.mem_map_of_mem _ hk, List.mem_map_of_mem _ hp⟩
  have hin : p ∈ keySeries store k s e lim := by
    have := List.mem_filter.mp hk
    have hmap := this.1
    rcases List.mem_map.mp hmap with ⟨k', hk', heq⟩
    cases heq
    exact hp
  exact le_trans (mem_keySeries_ts hin).1 (le_foldr_max _ _ hmem)

theorem batchMax_le {store : List Sample} {keys : List String} {lim s e : Nat} :
    batchMax (fetchGrouped store keys lim s e) ≤ e := by
  unfold batchMax
  refine foldr_max_le _ ?_
  intro x hx
  rw [List.mem_flatten] at hx
  rcases hx with ⟨l, hl, hxl⟩
  rcases List.mem_map.mp hl with ⟨⟨k, entries⟩, hk, rfl⟩
  rcases List.mem_map.mp hxl with ⟨p, hp, rfl⟩
  have := List.mem_filter.mp hk
  rcases List.mem_map.mp this.1 with ⟨k', _, heq⟩
  cases heq
  exact (mem_keySeries_ts hp).2

/-! ## Record merger (`all_data`) and durable writer -/

/-- The in-memory table `all_data`: timestamp (ms) mapped to the dict of
key/value pairs seen for that timestamp. -/
abbrev TsMap := List (Nat × List (String × String))

/-- Python dict assignment on the inner per-timestamp dict. -/
def setKey (row : List (String × String)) (k v : String) :
    List (String × String) :=
  match row with
  | [] => [(k, v)]
  | (k', v') :: rest => if k' = k then (k, v) :: rest else (k', v') :: setKey rest k v

/-- `all_data[ts][key] = value`, creating the inner dict when absent. -/
def insertSample (m : TsMap) (ts : Nat) (k v : String) : TsMap :=
  match m with
  | [] => [(ts, [(k, v)])]
  | (t, row) :: rest =>
      if t = ts then (t, setKey row k v) :: rest
      else (t, row) :: insertSample rest ts k v

/-- Folding one response into `all_data`
(`for key in data: for entry in data[key]: all_data[ts][key] = value`). -/
def mergeBatch (m : TsMap) (b : List (String × List (Nat × String))) : TsMap :=
  b.foldl (fun acc p => p.2.foldl (fun acc2 e => insertSample acc2 e.1 p.1 e.2) acc) m

/-- Lexicographic char-code comparison, the ordering Python uses on
strings. -/
def charListLe : List Char → List Char → Bool
  | [], _ => true
  | _ :: _, [] => false
  | a :: as, b :: bs =>
      if a.toNat < b.toNat then true
      else if b.toNat < a.toNat then false
      else charListLe as bs

def strLeB (a b : String) : Bool := charListLe a.data b.data

/-- Dict lookup on `all_data[ts]`. -/
def rowOf (m : TsMap) (ts : Nat) : List (String × String) :=
  match m with
  | [] => []
  | (t, row) :: rest => if t = ts then row else rowOf rest ts

/-- Dict `.get(key, '')` on an inner row. -/
def cellOf (row : List (String × String)) (k : String) : String :=
  match row with
  | [] => ""
  | (k', v) :: rest => if k' = k then v else cellOf rest k

/-- One archive row as written to disk: the rendered timestamp and the cell
for each key of the sorted header.  The source renders the timestamp with
strftime at second precision; that rendering is injective on whole seconds,
so it is modelled as the number `ts / 1000` of seconds since the epoch. -/
abbrev OutRow := Nat × List (String × String)

/-- One write block of the pagination loop: all rows of the accumulated
`all_data`, sorted ascending by timestamp, each row listing the sorted keys
with `all_data[ts].get(key, '')`. -/
def sortedRows (keys : List String) (m : TsMap) : List OutRow :=
  (sortLeBy Nat.ble (m.map Prod.fst)).map
    (fun ts => (ts / 1000, (sortLeBy strLeB keys).map (fun k => (k, cellOf (rowOf m ts) k))))

/-- The pagination loop of `download_telemetries` for one device.  Each
iteration requests `[s, e]`, merges the response into the cumulative
`all_data`, appends the whole accumulated table to the CSV file (the write
block runs inside the loop and the table is never cleared), and advances
`s` to the largest timestamp observed plus one.  It stops when the
response is empty or when `s > e`. -/
def runLoop (store : List Sample) (keys : List String) (lim e : Nat)
    (s : Nat) (ad : TsMap) (file : List OutRow) : List OutRow :=
  if e < s then file
  else if hb : fetchGrouped store keys lim s e = [] then file
  else
    let ad2 := mergeBatch ad (fetchGrouped store keys lim s e)
    runLoop store keys lim e (batchMax (fetchGrouped store keys lim s e) + 1) ad2
      (file ++ sortedRows keys ad2)
  termination_by e + 1 - s
  decreasing_by
    have hge : s ≤ batchMax (fetchGrouped store keys lim s e) := batchMax_ge hb
    omega

/-! ## Window resolver: get_time_range (day-by-day probe) -/

def msPerDay : Nat := 86400000

/-- Largest natural in a list, `none` on the empty list. -/
def listMaxO : List Nat → Option Nat
  | [] => none
  | a :: l =>
      match listMaxO l with
      | none => some a
      | some m => some (max a m)

/-- First (oldest) timestamp of key `k` inside `[s, e]`
(`limit 1, orderBy ASC` probe). -/
def earliestAsc (store : List Sample) (k : String) (s e : Nat) : Option Nat :=
  ((keySeries store k s e 1).head?).map Prod.fst

/-- Latest timestamp of key `k` over the whole store
(`limit 1, ascOrder false` probe without a window). -/
def latestDesc (store : List Sample) (k : String) : Option Nat :=
  listMaxO ((store.filter (fun x => decide (x.key = k))).map Sample.ts)

/-- Python truthiness of the optional timestamps `oldest_timestamp` and
`newest_timestamp` (`None` and `0` are falsy). -/
def truthy : Option Nat → Bool
  | none => false
  | some t => t != 0

/-- `if oldest_timestamp is None or key_oldest_ts < oldest_timestamp`. -/
def updMin : Option Nat → Nat → Option Nat
  | none, t => some t
  | some o, t => some (if t < o then t else o)

/-- `if newest_timestamp is None or key_newest_ts > newest_timestamp`. -/
def updMax : Option Nat → Nat → Option Nat
  | none, t => some t
  | some o, t => some (if o < t then t else o)

/-- The inner key loop of one probed day: for each key, look for its first
sample in the day window; when found, also query the key's latest sample
overall; break out of the key loop as soon as both ends are (truthily)
known. -/
def scanKeys (store : List Sample) (s e : Nat) :
    List String → Option Nat → Option Nat → Option Nat × Option Nat
  | [], o, n => (o, n)
  | k :: ks, o, n =>
      match earliestAsc store k s e with
      | none => scanKeys store s e ks o n
      | some t0 =>
          let o2 := updMin o t0
          let n2 :=
            match latestDesc store k with
            | none => n
            | some t1 => updMax n t1
          if truthy o2 && truthy n2 then (o2, n2) else scanKeys store s e ks o2 n2

/-- The outer day loop of `get_time_range`, iterating the probed day
window one day at a time.  The source's `while current_date <= end_date`
makes exactly `(end - start) / day + 1` iterations (the start is below the
end), which is the explicit trip count used here so that the recursion is
structural. -/
def scanDaysN (store : List Sample) (keys : List String) :
    Nat → Nat → Option Nat → Option Nat → Option Nat × Option Nat
  | 0, _, o, n => (o, n)
  | fuelN + 1, cur, o, n =>
      let p := scanKeys store cur (cur + msPerDay) keys o n
      if truthy p.1 && truthy p.2 then p
      else scanDaysN store keys fuelN (cur + msPerDay) p.1 p.2

/-- `get_time_range`: probe the last 30 days, day by day, for the oldest
available timestamp and the latest available timestamp, returning `none`
when the whole horizon is silent.  The local archive is not consulted. -/
def get_time_range (store : List Sample) (keys : List String) (now : Nat) :
    Option (Nat × Nat) :=
  let startDate := now - 30 * msPerDay
  match scanDaysN store keys ((now - startDate) / msPerDay + 1) startDate none none with
  | (some o, some n) => some (o, n)
  | _ => none

/-- The per-device body of `download_telemetries`: resolve the window with
`get_time_range` (skipping the device when it reports no data) and run the
pagination loop with the hardcoded row limit 10000, appending to whatever
archive rows already exist on disk. -/
def download_telemetries (store : List Sample) (keys : List String) (now : Nat)
    (archive : List OutRow) : List OutRow :=
  match get_time_range store keys now with
  | none => archive
  | some (s, e) => runLoop store keys 10000 e s [] archive

/-- The list of `startTs` values actually requested by the pagination loop
of `download_telemetries` for a window `[s, e]`. -/
def pageStarts (store : List Sample) (keys : List String) (lim e : Nat)
    (s : Nat) : List Nat :=
  if e < s then []
  else if hb : fetchGrouped store keys lim s e = [] then [s]
  else s :: pageStarts store keys lim e (batchMax (fetchGrouped store keys lim s e) + 1)
  termination_by e + 1 - s
  decreasing_by
    have hge : s ≤ batchMax (fetchGrouped store keys lim s e) := batchMax_ge hb
    omega

/-! ## Window resolver: get_time_range_fijo -/

/-- `end_ts = max(end_ts, key_end_ts) if end_ts else key_end_ts` (Python
truthiness: a zero `end_ts` is replaced rather than maxed). -/
def updEnd (e : Option Nat) (t : Nat) : Option Nat :=
  match e with
  | some v => if v != 0 then some (max v t) else some t
  | none => some t

/-- The key loop of `get_time_range_fijo`: latest available sample per key,
folded with `updEnd`. -/
def fijoEndScan (store : List Sample) : List String → Option Nat → Option Nat
  | [], e => e
  | k :: ks, e =>
      match latestDesc store k with
      | none => fijoEndScan store ks e
      | some t => fijoEndScan store ks (updEnd e t)

/-- `get_time_range_fijo`: the start is a fixed constant timestamp; the end
is the latest sample over all keys (falling back to `now`); when
`start_ts >= end_ts` the end is bumped to `start_ts + 1000` (one second). -/
def get_time_range_fijo (store : List Sample) (keys : List String)
    (fixed_start_ts now : Nat) : Nat × Nat :=
  let endO := fijoEndScan store keys none
  let e := match endO with
    | none => now
    | some v => v
  if e ≤ fixed_start_ts then (fixed_start_ts, fixed_start_ts + 1000)
  else (fixed_start_ts, e)

/-! ## Calibration engine: transfer function -/

/-- One entry of `puntos_calibracion` in `calibracion.json`. -/
structure CalPoint where
  corriente_real : ℚ
  lectura_sensor : ℚ
deriving DecidableEq

/-- Value at `t` of the line through `p` and `q` (coordinates `(x, y)`). -/
def segEval (p q : ℚ × ℚ) (t : ℚ) : ℚ :=
  p.2 + (t - p.1) * (q.2 - p.2) / (q.1 - p.1)

/-- Piecewise-linear evaluation over the segment list: use the segment
`(p, q)` while `t ≤ q.1`, otherwise move to the next segment; the last
segment also serves inputs beyond the sampled range (linear
extrapolation), and the first serves inputs below it. -/
def plinAux : ℚ × ℚ → ℚ × ℚ → List (ℚ × ℚ) → ℚ → ℚ
  | p, q, [], t => segEval p q t
  | p, q, r :: rest, t => if t ≤ q.1 then segEval p q t else plinAux q r rest t

/-- `interp1d(xs, ys, fill_value="extrapolate")` for at least two points
(default linear kind), as a function of the point list. -/
def interp1dE (pts : List (ℚ × ℚ)) (t : ℚ) : ℚ :=
  match pts with
  | p :: q :: rest => plinAux p q rest t
  | _ => 0

/-- `generate_transfer_function`: requires at least two calibration points
(else `ValueError`), and interpolates `lectura_sensor` (raw) against
`corriente_real` (true) with linear extrapolation outside the range. -/
def generate_transfer_function (puntos : List CalPoint) : Except String (ℚ → ℚ) :=
  let sensor_readings := puntos.map (·.lectura_sensor)
  let real_values := puntos.map (·.corriente_real)
  if sensor_readings.length < 2 ∨ real_values.length < 2 then
    .error "La calibración requiere al menos dos puntos."
  else
    .ok (interp1dE (sensor_readings.zip real_values))

/-! ## Calibration engine: applying the transfer function to rows -/

/-- Python's `round(x, 2)` (round half to even at two decimals), on exact
rationals. -/
def roundHalfEven (q : ℚ) : ℤ :=
  let n := ⌊q⌋
  let r := q - n
  if r < 1 / 2 then n
  else if 1 / 2 < r then n + 1
  else if Even n then n else n + 1

def round2 (q : ℚ) : ℚ := (roundHalfEven (q * 100) : ℚ) / 100

/-- A cell of a CSV row as held in the Python row dict: either the string
read from the file or a number assigned by the calibration code. -/
inductive Cell where
  | str (s : String)
  | num (q : ℚ)
deriving DecidableEq

def digitVal (c : Char) : Option Nat :=
  if 48 ≤ c.toNat ∧ c.toNat ≤ 57 then some (c.toNat - 48) else none

def digitsToNatAux : List Char → Nat → Option Nat
  | [], acc => some acc
  | c :: cs, acc =>
      match digitVal c with
      | none => none
      | some d => digitsToNatAux cs (acc * 10 + d)

/-- Decimal literal without sign: integer part, optional dot, fraction. -/
def parseUnsigned (l : List Char) : Option ℚ :=
  let intPart := l.takeWhile (fun c => c ≠ '.')
  let rest := l.dropWhile (fun c => c ≠ '.')
  match rest with
  | [] =>
      if intPart.isEmpty then none
      else (digitsToNatAux intPart 0).map (fun n => (n : ℚ))
  | _ :: frac =>
      if intPart.isEmpty ∧ frac.isEmpty then none
      else
        match digitsToNatAux intPart 0, digitsToNatAux frac 0 with
        | some n, some f => some ((n : ℚ) + (f : ℚ) / (10 : ℚ) ^ frac.length)
        | _, _ => none

/-- Python `float(...)` on a plain decimal string (the numeric strings that
occur in the telemetry CSVs); `none` models a raised `ValueError`. -/
def pyFloat (s : String) : Option ℚ :=
  match s.data with
  | '-' :: rest => (parseUnsigned rest).map Neg.neg
  | '+' :: rest => parseUnsigned rest
  | l => parseUnsigned l

/-- `float(row.get(field, 0) or 0)` of the active (second)
`process_and_calibrate_telemetry`: a missing field or an empty string
yields `0`; an unparseable string raises `ValueError`, which this version
does not catch. -/
def getNum : Option Cell → Except String ℚ
  | none => .ok 0
  | some (.num q) => .ok q
  | some (.str s) =>
      if s = "" then .ok 0
      else
        match pyFloat s with
        | some q => .ok q
        | none => .error "ValueError"

/-- The fields of a telemetry CSV row that the calibration code reads or
writes; `none` means the column is absent from the row dict. -/
structure Row where
  current : Option Cell := none
  voltage : Option Cell := none
  current_cal : Option Cell := none
  power_cal : Option Cell := none
deriving DecidableEq

/-- One row of the active (second) `process_and_calibrate_telemetry`:
parse current and voltage (possibly raising), then, when a transfer
function exists and (`recalibrate_all` or either derived column is
missing), compute `current_cal = round(transfer(current), 2)` for positive
current (`0` otherwise) and `power_cal = round(voltage * current_cal, 2)`;
otherwise keep the previous values (defaulting to the empty string). -/
def process_row (tf : Option (ℚ → ℚ)) (recalibrate_all : Bool) (row : Row) :
    Except String Row := do
  let current ← getNum row.current
  let voltage ← getNum row.voltage
  match tf with
  | some f =>
      if recalibrate_all || row.current_cal.isNone || row.power_cal.isNone then
        let c : ℚ := if 0 < current then round2 (f current) else 0
        pure { row with current_cal := some (.num c),
                        power_cal := some (.num (round2 (voltage * c))) }
      else
        pure { row with current_cal := some (row.current_cal.getD (.str "")),
                        power_cal := some (row.power_cal.getD (.str "")) }
  | none =>
      pure { row with current_cal := some (row.current_cal.getD (.str "")),
                      power_cal := some (row.power_cal.getD (.str "")) }

/-! ## Device directory model for the calibration pass -/

/-- A CSV file on disk: its modification time and its rows. -/
structure CsvFile where
  mtime : Nat
  rows : List Row
deriving DecidableEq

/-- The `calibracion.json` file of a device: modification time and its
`puntos_calibracion`. -/
structure CalibFile where
  mtime : Nat
  puntos_calibracion : List CalPoint
deriving DecidableEq

/-- A device directory: its CSV files (name to content) and the optional
calibration table. -/
structure DeviceDir where
  csvFiles : List (String × CsvFile)
  calib : Option CalibFile
deriving DecidableEq

def lookupFile (d : DeviceDir) (name : String) : Option CsvFile :=
  match d.csvFiles.find? (fun p => p.1 == name) with
  | some p => some p.2
  | none => none

def upsert : List (String × CsvFile) → String → CsvFile → List (String × CsvFile)
  | [], n, f => [(n, f)]
  | (m, g) :: l, n, f => if m = n then (n, f) :: l else (m, g) :: upsert l n f

/-- Writing a CSV file: overwrite the file of that name or create it. -/
def writeFile (d : DeviceDir) (name : String) (f : CsvFile) : DeviceDir :=
  { d with csvFiles := upsert d.csvFiles name f }

/-- The identity-like placeholder table written by
`create_default_calibration`: points (1,1), (2,2), (3,3), (4,4). -/
def default_points : List CalPoint :=
  [⟨1, 1⟩, ⟨2, 2⟩, ⟨3, 3⟩, ⟨4, 4⟩]

/-- `create_default_calibration`: write `calibracion.json` with the fixed
placeholder points (the CSV files are untouched). -/
def create_default_calibration (now : Nat) (d : DeviceDir) : DeviceDir :=
  { d with calib := some ⟨now, default_points⟩ }

/-- Python `str.replace(".csv", "_cal.csv")` on the character list. -/
def replaceCsvAux : List Char → List Char
  | '.' :: 'c' :: 's' :: 'v' :: rest => '_' :: 'c' :: 'a' :: 'l' :: '.' :: 'c' :: 's' :: 'v' :: replaceCsvAux rest
  | c :: rest => c :: replaceCsvAux rest
  | [] => []

/-- Name of the calibrated output for an input CSV name. -/
def calName (name : String) : String := ⟨replaceCsvAux name.data⟩

/-- The row loop of `process_and_calibrate_telemetry`: process rows in
order, collecting the results; a raised error aborts the whole call. -/
def mapExcept (f : α → Except ε β) : List α → Except ε (List β)
  | [] => .ok []
  | a :: l =>
      match f a with
      | .error e => .error e
      | .ok b =>
          match mapExcept f l with
          | .error e => .error e
          | .ok bs => .ok (b :: bs)

/-- The active (second) `process_and_calibrate_telemetry`, one file of a
device directory; `now` is the wall clock stamped on files written.
Missing input file: return unchanged.  Missing calibration table: write
the default table and return without producing a calibrated file.
Otherwise: recalibrate everything iff the table is strictly newer than the
CSV, process the rows (errors propagate uncaught) and write
`<name>_cal.csv`. -/
def process_and_calibrate_telemetry (now : Nat) (d : DeviceDir) (name : String) :
    Except String DeviceDir :=
  match lookupFile d name with
  | none => .ok d
  | some file =>
      match d.calib with
      | none => .ok (create_default_calibration now d)
      | some cal =>
          let recalibrate_all := decide (file.mtime < cal.mtime)
          match generate_transfer_function cal.puntos_calibracion with
          | .error e => .error e
          | .ok tf =>
              match mapExcept (process_row (some tf) recalibrate_all) file.rows with
              | .error e => .error e
              | .ok outRows => .ok (writeFile d (calName name) ⟨now, outRows⟩)

/-- Glob match for `{device_name}_telemetry*.csv`. -/
def listBeginsWith : List Char → List Char → Bool
  | [], _ => true
  | _ :: _, [] => false
  | a :: as, b :: bs => a == b && listBeginsWith as bs

def matchesTelemetryGlob (deviceName name : String) : Bool :=
  let pat := (deviceName ++ "_telemetry").data
  listBeginsWith pat name.data &&
    listBeginsWith (".csv".data.reverse) name.data.reverse &&
    decide (pat.length + 4 ≤ name.data.length)

/-- Process a list of file names in order, threading the directory state
and propagating any raised error (which aborts the device). -/
def processList (now : Nat) : DeviceDir → List String → Except String DeviceDir
  | d, [] => .ok d
  | d, n :: ns =>
      match process_and_calibrate_telemetry now d n with
      | .error e => .error e
      | .ok d2 => processList now d2 ns

/-- The per-device body of `calibrate_telemetries`: glob
`{device_name}_telemetry*.csv`, sort the names, and run the calibration on
each in order. -/
def calibrate_device (now : Nat) (deviceName : String) (d : DeviceDir) :
    Except String DeviceDir :=
  let telemetry_files :=
    sortLeBy strLeB ((d.csvFiles.map Prod.fst).filter (matchesTelemetryGlob deviceName))
  processList now d telemetry_files

/-! ## Remote purge (shrinking windows) -/

/-- Modelled from the spec: the repository source contains no remote purge
implementation (no telemetry delete call exists in `descargar_v0.py`);
sections 4.6 and 8 of the spec describe it, so the purge is modelled from
the spec's words.  The descending day-count shrink sequence. -/
def shrink_days : List Nat := [30, 15, 7, 3, 1]

/-- Modelled from the spec: split `[s, e]` into consecutive sub-windows of
at most `L` milliseconds each. -/
def subWindows (L : Nat) (s e : Nat) : List (Nat × Nat) :=
  if L = 0 then [(s, e)]
  else if e + 1 - s ≤ L then [(s, e)]
  else (s, s + L - 1) :: subWindows L (s + L) e
  termination_by e + 1 - s
  decreasing_by omega

/-- Modelled from the spec: attempt each pending window with the remote
delete (`ok` says whether the remote accepts a window); a refused window is
split into sub-windows of the next day-count and retried; when the
day-count sequence is exhausted the segment is abandoned (logged).
Returns the windows actually deleted. -/
def purgeLevel (ok : Nat → Nat → Bool) :
    List Nat → List (Nat × Nat) → List (Nat × Nat)
  | _, [] => []
  | seq, w :: ws =>
      (if ok w.1 w.2 then [w]
       else
         match seq with
         | [] => []
         | d :: rest => purgeLevel ok rest (subWindows (d * msPerDay) w.1 w.2)) ++
        purgeLevel ok seq ws
  termination_by seq ws => (seq.length, ws.length)

/-- Modelled from the spec: purge of one archived window, attempting the
full window first and then shrinking through `shrink_days`. -/
def purge (ok : Nat → Nat → Bool) (s e : Nat) : List (Nat × Nat) :=
  purgeLevel ok shrink_days [(s, e)]

/-- Local archive plus remote store, as they stand after the durable write
of a window. -/
structure SyncState where
  archive : List OutRow
  remote : List Sample
deriving DecidableEq

/-- Modelled from the spec: applying the purge removes the deleted windows
from the remote store; the local archive is not an input of the deletion
and is returned as it stands. -/
def apply_purge (ok : Nat → Nat → Bool) (s e : Nat) (st : SyncState) : SyncState :=
  { archive := st.archive,
    remote := st.remote.filter
      (fun smp => !(purge ok s e).any (fun w => decide (w.1 ≤ smp.ts) && decide (smp.ts ≤ w.2))) }

/-! ## Concrete data used by counterexamples and witnesses -/

/-- A remote store holding a single sample of the single key `k`. -/
def store1 : List Sample := [⟨"k", 1000, "5"⟩]

/-- A wall clock exactly 30 days after the epoch, so that the probe horizon
of `get_time_range` starts at 0 and the sample is found on the first
probed day. -/
def now0 : Nat := 2592000000

/-- Projection used to state facts about the directory produced by a run
of the calibration pass. -/
def runResult (r : Except String DeviceDir) : Option DeviceDir :=
  match r with
  | .ok d => some d
  | .error _ => none

/-! ## Claim C4: window correction -/

/-- C4 counterexample: the window-resolution path actually used by
`download_telemetries` is `get_time_range`, and it applies no correction:
on a store whose only sample has timestamp 1000 it resolves the window
`(1000, 1000)` with `start_ts = end_ts`, so the window handed to the
fetcher does not satisfy `end_ts > start_ts` and no bump is applied on
this path. -/
theorem C4_counterexample :
    get_time_range store1 ["k"] now0 = some (1000, 1000) ∧ ¬ (1000 : Nat) < 1000 := by
  exact ⟨by decide, by decide⟩

/-- C4 (amended): only `get_time_range_fijo` applies the correction: it
always returns a window starting at the fixed start whose end is strictly
later, bumping `end_ts` to `start_ts + 1000` milliseconds whenever the
resolved end would not be strictly later; `get_time_range` (the path used
by `download_telemetries`) performs no such correction and can resolve
`start_ts = end_ts`. -/
theorem C4_fijo_corrects_window (store : List Sample) (keys : List String)
    (fixed_start_ts now : Nat) :
    (get_time_range_fijo store keys fixed_start_ts now).1 = fixed_start_ts ∧
    fixed_start_ts < (get_time_range_fijo store keys fixed_start_ts now).2 ∧
    (∀ eRaw, eRaw = (match fijoEndScan store keys none with
        | none => now
        | some v => v) → eRaw ≤ fixed_start_ts →
      (get_time_range_fijo store keys fixed_start_ts now).2 = fixed_start_ts + 1000) := by
  have hval : get_time_range_fijo store keys fixed_start_ts now =
      if (match fijoEndScan store keys none with
          | none => now
          | some v => v) ≤ fixed_start_ts
      then (fixed_start_ts, fixed_start_ts + 1000)
      else (fixed_start_ts,
        (match fijoEndScan store keys none with
          | none => now
          | some v => v)) := rfl
  rw [hval]
  by_cases h : (match fijoEndScan store keys none with
      | none => now
      | some v => v) ≤ fixed_start_ts
  · rw [if_pos h]
    exact ⟨rfl, by omega, fun eRaw h1 h2 => rfl⟩
  · rw [if_neg h]
    exact ⟨rfl, Nat.lt_of_not_le h, fun eRaw h1 h2 => absurd (h1 ▸ h2) h⟩

/-- C4 witness: the amended theorem applied to an empty store, where the
resolved end (the wall clock 1000) lies at or before the fixed start 5000,
so the end is bumped to 5000 + 1000. -/
theorem C4_witness :
    (get_time_range_fijo [] [] 5000 1000).1 = 5000 ∧
    (get_time_range_fijo [] [] 5000 1000).2 = 5000 + 1000 :=
  ⟨(C4_fijo_corrects_window [] [] 5000 1000).1,
   (C4_fijo_corrects_window [] [] 5000 1000).2.2 1000 rfl (by norm_num)⟩

/-! ## Claim C5: transfer function -/

theorem segEval_left (p q : ℚ × ℚ) : segEval p q p.1 = p.2 := by
  simp [segEval]

theorem segEval_right (p q : ℚ × ℚ) (h : p.1 ≠ q.1) : segEval p q q.1 = q.2 := by
  have h2 : q.1 - p.1 ≠ 0 := sub_ne_zero_of_ne (Ne.symm h)
  unfold segEval
  field_simp

theorem plinAux_nodes (rest : List (ℚ × ℚ)) :
    ∀ p q : ℚ × ℚ,
      List.Pairwise (fun a b : ℚ × ℚ => a.1 < b.1) (p :: q :: rest) →
      ∀ pt ∈ p :: q :: rest, plinAux p q rest pt.1 = pt.2 := by
  induction rest with
  | nil =>
      intro p q hsort pt hpt
      have hpq : p.1 < q.1 := by
        have := (List.pairwise_cons.mp hsort).1
        exact this q (by simp)
      rcases List.mem_cons.mp hpt with heq | hpt2
      · subst heq
        exact segEval_left _ _
      · rcases List.mem_cons.mp hpt2 with heq | hpt3
        · subst heq
          exact segEval_right _ _ (ne_of_lt hpq)
        · cases hpt3
  | cons r rest ih =>
      intro p q hsort pt hpt
      have hpq : p.1 < q.1 := by
        have := (List.pairwise_cons.mp hsort).1
        exact this q (by simp)
      have htail : List.Pairwise (fun a b : ℚ × ℚ => a.1 < b.1) (q :: r :: rest) :=
        (List.pairwise_cons.mp hsort).2
      rcases List.mem_cons.mp hpt with heq | hpt2
      · subst heq
        rw [plinAux, if_pos (le_of_lt hpq)]
        exact segEval_left _ _
      · rcases List.mem_cons.mp hpt2 with heq | hpt3
        · subst heq
          rw [plinAux, if_pos (le_refl _)]
          exact segEval_right _ _ (ne_of_lt hpq)
        · have hgt : q.1 < pt.1 := by
            have := (List.pairwise_cons.mp htail).1
            exact this pt hpt3
          rw [plinAux, if_neg (not_le_of_lt hgt)]
          exact ih q r htail pt (List.mem_cons.mpr (Or.inr hpt3))

/-- C5: `generate_transfer_function` rejects tables with fewer than two
points with the insufficient-calibration-data `ValueError`; with at least
two points it returns the piecewise-linear interpolant through the
calibration points with linear extrapolation outside the sampled range:
on the identity table (1,1),(2,2),(3,3),(4,4) it maps 2.5 to 2.5 and 10
to 10 (not clamped to 4), and in general it passes through every
calibration point. -/
theorem C5_transfer_function :
    (∀ puntos : List CalPoint, puntos.length < 2 →
      generate_transfer_function puntos =
        .error "La calibración requiere al menos dos puntos.") ∧
    (∃ f, generate_transfer_function default_points = .ok f ∧
      f (5 / 2) = 5 / 2 ∧ f 10 = 10) ∧
    (∀ puntos f,
      List.Pairwise (fun a b : CalPoint => a.lectura_sensor < b.lectura_sensor) puntos →
      generate_transfer_function puntos = .ok f →
      ∀ pt ∈ puntos, f pt.lectura_sensor = pt.corriente_real) := by
  refine ⟨?_, ?_, ?_⟩
  · intro puntos h
    have h1 : (puntos.map (·.lectura_sensor)).length < 2 := by simpa using h
    unfold generate_transfer_function
    rw [if_pos (Or.inl h1)]
  · refine ⟨interp1dE [(1, 1), (2, 2), (3, 3), (4, 4)], rfl, ?_, ?_⟩
    · norm_num [interp1dE, plinAux, segEval]
    · norm_num [interp1dE, plinAux, segEval]
  · intro puntos f hsort hok pt hpt
    unfold generate_transfer_function at hok
    by_cases hlen : puntos.length < 2
    · rw [if_pos (by simp [hlen])] at hok
      cases hok
    · rw [if_neg (by simp [hlen])] at hok
      have hz : (puntos.map (·.lectura_sensor)).zip (puntos.map (·.corriente_real)) =
          puntos.map (fun pt => (pt.lectura_sensor, pt.corriente_real)) :=
        List.zip_map' _ _ _
      obtain ⟨p1, rest1, hp1⟩ : ∃ a l, puntos = a :: l := by
        cases puntos with
        | nil => simp at hlen
        | cons a l => exact ⟨a, l, rfl⟩
      obtain ⟨p2, rest, hp2⟩ : ∃ a l, rest1 = a :: l := by
        cases rest1 with
        | nil => rw [hp1] at hlen; simp at hlen
        | cons a l => exact ⟨a, l, rfl⟩
      subst hp2
      subst hp1
      have hf : f = interp1dE
          ((p1 :: p2 :: rest).map (fun pt => (pt.lectura_sensor, pt.corriente_real))) := by
        rw [hz] at hok
        exact (Except.ok.inj hok).symm
      rw [hf]
      have hsort2 : List.Pairwise (fun a b : ℚ × ℚ => a.1 < b.1)
          ((p1 :: p2 :: rest).map (fun pt => (pt.lectura_sensor, pt.corriente_real))) := by
        rw [List.pairwise_map]
        simpa using hsort
      have hmem : (pt.lectura_sensor, pt.corriente_real) ∈
          (p1 :: p2 :: rest).map (fun pt => (pt.lectura_sensor, pt.corriente_real)) :=
        List.mem_map_of_mem _ hpt
      have := plinAux_nodes (rest.map (fun pt => (pt.lectura_sensor, pt.corriente_real)))
        (p1.lectura_sensor, p1.corriente_real) (p2.lectura_sensor, p2.corriente_real)
        (by simpa using hsort2) (pt.lectura_sensor, pt.corriente_real) (by simpa using hmem)
      simpa [interp1dE] using this

/-- C5 witness: the theorem applied to the one-point table and to the
identity table with the concrete point (3, 3). -/
theorem C5_witness :
    generate_transfer_function [⟨1, 1⟩] =
      .error "La calibración requiere al menos dos puntos." ∧
    (∃ f, generate_transfer_function default_points = .ok f ∧ f 3 = 3) := by
  refine ⟨C5_transfer_function.1 [⟨1, 1⟩] (by decide), ?_⟩
  rcases C5_transfer_function.2.1 with ⟨f, hok, -, -⟩
  refine ⟨f, hok, ?_⟩
  have := C5_transfer_function.2.2 default_points f ?_ hok ⟨3, 3⟩ ?_
  · exact this
  · norm_num [default_points, List.pairwise_cons]
  · norm_num [default_points]

/-! ## Claim C6: applying the calibration to a row -/

theorem process_row_compute (f : ℚ → ℚ) (recal : Bool) (row : Row) (c v : ℚ)
    (hc : getNum row.current = .ok c) (hv : getNum row.voltage = .ok v)
    (hcond2 : (recal || row.current_cal.isNone || row.power_cal.isNone) = true) :
    process_row (some f) recal row = .ok { row with
      current_cal := some (.num (if 0 < c then round2 (f c) else 0)),
      power_cal := some (.num (round2 (v * (if 0 < c then round2 (f c) else 0)))) } := by
  unfold process_row
  rw [hc, hv]
  show (if recal || row.current_cal.isNone || row.power_cal.isNone then _ else _ :
    Except String Row) = _
  rw [if_pos hcond2]
  rfl

theorem process_row_preserve (f : ℚ → ℚ) (row : Row) (c v : ℚ)
    (hc : getNum row.current = .ok c) (hv : getNum row.voltage = .ok v)
    (cc pc : Cell)
    (hcc2 : row.current_cal = some cc) (hpc2 : row.power_cal = some pc) :
    process_row (some f) false row = .ok row := by
  unfold process_row
  rw [hc, hv]
  show (if false || row.current_cal.isNone || row.power_cal.isNone then _ else _ :
    Except String Row) = _
  rw [if_neg (by simp [hcc2, hpc2])]
  rw [hcc2, hpc2]
  show Except.ok { row with current_cal := some cc, power_cal := some pc } = Except.ok row
  rw [← hcc2, ← hpc2]

theorem round2_zero : round2 0 = 0 := by
  norm_num [round2, roundHalfEven]

/-- C6 (amended): in the active calibration apply step, a missing field or
an empty string defaults the raw reading to 0, while an unparseable string
raises an uncaught `ValueError` (it does not default); when the derived
columns are computed (recalibration requested or a derived column
missing): a raw current > 0 yields `current_cal = round(transfer(current), 2)`
and `power_cal = round(voltage * current_cal, 2)`, and a raw current ≤ 0
yields 0 for both derived fields, with an output independent of the
transfer function. -/
theorem C6_calibration_apply (f : ℚ → ℚ) (recal : Bool) (row : Row) (c v : ℚ)
    (hc : getNum row.current = .ok c) (hv : getNum row.voltage = .ok v)
    (hcond : recal = true ∨ row.current_cal = none ∨ row.power_cal = none) :
    (getNum none = Except.ok (0 : ℚ) ∧ getNum (some (.str "")) = Except.ok (0 : ℚ)) ∧
    (∀ s, s ≠ "" → pyFloat s = none →
      getNum (some (.str s)) = .error "ValueError") ∧
    ∃ out, process_row (some f) recal row = .ok out ∧
      (0 < c → out.current_cal = some (.num (round2 (f c))) ∧
        out.power_cal = some (.num (round2 (v * round2 (f c))))) ∧
      (¬ 0 < c → out.current_cal = some (.num 0) ∧ out.power_cal = some (.num 0) ∧
        ∀ g : ℚ → ℚ, process_row (some g) recal row = .ok out) := by
  have hcond2 : (recal || row.current_cal.isNone || row.power_cal.isNone) = true := by
    rcases hcond with h | h | h <;> simp [h]
  refine ⟨⟨rfl, rfl⟩, ?_, ?_⟩
  · intro s h1 h2
    simp [getNum, h1, h2]
  · refine ⟨{ row with
        current_cal := some (.num (if 0 < c then round2 (f c) else 0)),
        power_cal := some (.num (round2 (v * (if 0 < c then round2 (f c) else 0)))) },
      process_row_compute f recal row c v hc hv hcond2, ?_, ?_⟩
    · intro hpos
      rw [if_pos hpos]
      exact ⟨rfl, rfl⟩
    · intro hneg
      rw [if_neg hneg]
      refine ⟨rfl, ?_, ?_⟩
      · show some (Cell.num (round2 (v * 0))) = some (Cell.num 0)
        rw [mul_zero, round2_zero]
      · intro g
        rw [process_row_compute g recal row c v hc hv hcond2]
        rw [if_neg hneg]

/-- C6 counterexample: the active calibration pass raises `ValueError` on a
row whose raw current is unparseable instead of defaulting it to 0 (the
shadowed first definition of `process_and_calibrate_telemetry` caught this
error; the active second definition does not). -/
theorem C6_counterexample :
    process_row (some (fun q => q)) true { current := some (.str "12a3") } =
      .error "ValueError" := rfl

/-- C6 witness: the amended theorem applied to a concrete parseable row
with current 2 and voltage 3 under a recalibrating pass. -/
theorem C6_witness :
    (getNum none = Except.ok (0 : ℚ) ∧ getNum (some (.str "")) = Except.ok (0 : ℚ)) ∧
    (∀ s, s ≠ "" → pyFloat s = none →
      getNum (some (.str s)) = .error "ValueError") ∧
    ∃ out, process_row (some (fun q => q)) true
        { current := some (.str "2"), voltage := some (.str "3") } = .ok out ∧
      ((0 : ℚ) < 2 → out.current_cal = some (.num (round2 ((fun q : ℚ => q) 2))) ∧
        out.power_cal = some (.num (round2 (3 * round2 ((fun q : ℚ => q) 2))))) ∧
      (¬ (0 : ℚ) < 2 → out.current_cal = some (.num 0) ∧ out.power_cal = some (.num 0) ∧
        ∀ g : ℚ → ℚ, process_row (some g) true
          { current := some (.str "2"), voltage := some (.str "3") } = .ok out) :=
  C6_calibration_apply (fun q => q) true
    { current := some (.str "2"), voltage := some (.str "3") } 2 3 rfl rfl (Or.inl rfl)

/-! ## Claim C7: recalibration trigger -/

/-- A row with the derived columns removed: used to state that a
recalibrating pass ignores previously computed values. -/
def clearCal (r : Row) : Row := { r with current_cal := none, power_cal := none }

theorem mapExcept_ok_forall2 {f : α → Except ε β} :
    ∀ {l : List α} {out : List β}, mapExcept f l = .ok out →
      List.Forall₂ (fun a b => f a = .ok b) l out := by
  intro l
  induction l with
  | nil =>
      intro out h
      unfold mapExcept at h
      cases h
      exact List.Forall₂.nil
  | cons a l ih =>
      intro out h
      unfold mapExcept at h
      cases hfa : f a with
      | error e => rw [hfa] at h; cases h
      | ok b =>
          rw [hfa] at h
          cases hrest : mapExcept f l with
          | error e => rw [hrest] at h; cases h
          | ok bs =>
              rw [hrest] at h
              cases h
              exact List.Forall₂.cons hfa (ih hrest)

theorem mapExcept_ok_of_forall2 {f : α → Except ε β} :
    ∀ {l : List α} {out : List β},
      List.Forall₂ (fun a b => f a = .ok b) l out → mapExcept f l = .ok out := by
  intro l
  induction l with
  | nil =>
      intro out h
      cases h
      rfl
  | cons a l ih =>
      intro out h
      cases h with
      | cons hab htail =>
          unfold mapExcept
          rw [hab, ih htail]

theorem forall2_mem_right {R : α → β → Prop} :
    ∀ {l1 : List α} {l2 : List β}, List.Forall₂ R l1 l2 → ∀ b ∈ l2, ∃ a ∈ l1, R a b := by
  intro l1
  induction l1 with
  | nil =>
      intro l2 h b hb
      cases h
      cases hb
  | cons a l ih =>
      intro l2 h b hb
      cases h with
      | cons hab htail =>
          rcases List.mem_cons.mp hb with heq | hb2
          · exact ⟨a, by simp, heq ▸ hab⟩
          · rcases ih htail b hb2 with ⟨a2, ha2, hr⟩
            exact ⟨a2, by simp [ha2], hr⟩

theorem process_row_ok_parse (tf : Option (ℚ → ℚ)) (recal : Bool) (r o : Row)
    (h : process_row tf recal r = .ok o) :
    ∃ c v, getNum r.current = .ok c ∧ getNum r.voltage = .ok v := by
  unfold process_row at h
  cases hc : getNum r.current with
  | error e => rw [hc] at h; cases h
  | ok c =>
      rw [hc] at h
      cases hv : getNum r.voltage with
      | error e => rw [hv] at h; cases h
      | ok v => exact ⟨c, v, rfl, rfl⟩

/-- C7: the recalibration trigger is the strict comparison of the
calibration table's mtime with the CSV's mtime.  When the table is newer,
the pass recomputes the derived columns of every row — the output equals
the output on rows whose previous derived values were erased, and every
output row carries freshly computed numeric values.  When the table is not
newer, a row that already has both derived columns passes through
unchanged, and only rows missing a derived column get computed values. -/
theorem C7_recalibration_trigger (tf : ℚ → ℚ) (calib_mtime csv_mtime : Nat)
    (rows out : List Row)
    (hrun : mapExcept (process_row (some tf) (decide (csv_mtime < calib_mtime))) rows =
      .ok out) :
    (csv_mtime < calib_mtime →
      mapExcept (process_row (some tf) (decide (csv_mtime < calib_mtime)))
        (rows.map clearCal) = .ok out ∧
      ∀ o ∈ out, ∃ cq pq, o.current_cal = some (.num cq) ∧ o.power_cal = some (.num pq)) ∧
    (¬ csv_mtime < calib_mtime →
      List.Forall₂ (fun r o =>
        (∀ cc pc, r.current_cal = some cc → r.power_cal = some pc → o = r) ∧
        ((r.current_cal = none ∨ r.power_cal = none) →
          ∃ cq pq, o.current_cal = some (.num cq) ∧ o.power_cal = some (.num pq)))
        rows out) := by
  have hall := mapExcept_ok_forall2 hrun
  constructor
  · intro hnewer
    have hdec : decide (csv_mtime < calib_mtime) = true := decide_eq_true hnewer
    constructor
    · apply mapExcept_ok_of_forall2
      rw [List.forall₂_map_left_iff]
      refine hall.imp ?_
      intro r o h
      rcases process_row_ok_parse _ _ _ _ h with ⟨c, v, hc, hv⟩
      have hcomp := process_row_compute tf (decide (csv_mtime < calib_mtime)) r c v hc hv
        (by rw [hdec]; rfl)
      have ho : o = { r with
          current_cal := some (.num (if 0 < c then round2 (tf c) else 0)),
          power_cal := some (.num (round2 (v * (if 0 < c then round2 (tf c) else 0)))) } := by
        rw [h] at hcomp
        exact Except.ok.inj hcomp
      have hcomp2 := process_row_compute tf (decide (csv_mtime < calib_mtime)) (clearCal r) c v
        hc hv (by rw [hdec]; rfl)
      rw [hcomp2, ho]
      rfl
    · intro o ho
      rcases forall2_mem_right hall o ho with ⟨r, hr, h⟩
      rcases process_row_ok_parse _ _ _ _ h with ⟨c, v, hc, hv⟩
      have hcomp := process_row_compute tf (decide (csv_mtime < calib_mtime)) r c v hc hv
        (by rw [hdec]; rfl)
      have ho2 : o = { r with
          current_cal := some (.num (if 0 < c then round2 (tf c) else 0)),
          power_cal := some (.num (round2 (v * (if 0 < c then round2 (tf c) else 0)))) } := by
        rw [h] at hcomp
        exact Except.ok.inj hcomp
      rw [ho2]
      exact ⟨_, _, rfl, rfl⟩
  · intro hnot
    have hdec : decide (csv_mtime < calib_mtime) = false := decide_eq_false hnot
    rw [hdec] at hall
    refine hall.imp ?_
    intro r o h
    rcases process_row_ok_parse _ _ _ _ h with ⟨c, v, hc, hv⟩
    constructor
    · intro cc pc hcc hpc
      have hpres := process_row_preserve tf r c v hc hv cc pc hcc hpc
      rw [h] at hpres
      exact Except.ok.inj hpres
    · intro hmiss
      have hcond2 : (false || r.current_cal.isNone || r.power_cal.isNone) = true := by
        rcases hmiss with hm | hm <;> simp [hm]
      have hcomp := process_row_compute tf false r c v hc hv hcond2
      have ho : o = { r with
          current_cal := some (.num (if 0 < c then round2 (tf c) else 0)),
          power_cal := some (.num (round2 (v * (if 0 < c then round2 (tf c) else 0)))) } := by
        rw [h] at hcomp
        exact Except.ok.inj hcomp
      rw [ho]
      exact ⟨_, _, rfl, rfl⟩

/-- C7 witness: the theorem applied to a one-row file with calibration
mtime 2 and CSV mtime 1 (recalibration case). -/
theorem C7_witness :
    ∃ out, mapExcept (process_row (some (fun q : ℚ => q)) (decide ((1 : Nat) < 2)))
        [{ current := some (.str "2"), voltage := some (.str "3") }] = .ok out ∧
      (mapExcept (process_row (some (fun q : ℚ => q)) (decide ((1 : Nat) < 2)))
        ([{ current := some (.str "2"), voltage := some (.str "3") }].map clearCal) =
          .ok out ∧
       ∀ o ∈ out, ∃ cq pq, o.current_cal = some (.num cq) ∧
         o.power_cal = some (.num pq)) := by
  refine ⟨_, rfl, ?_⟩
  exact (C7_recalibration_trigger (fun q : ℚ => q) 2 1
    [{ current := some (.str "2"), voltage := some (.str "3") }] _ rfl).1 (by norm_num)

/-! ## Claim C8: missing calibration table -/

theorem mapExcept_ok_exists {f : α → Except ε β} :
    ∀ {l : List α}, (∀ a ∈ l, ∃ b, f a = .ok b) → ∃ out, mapExcept f l = .ok out := by
  intro l
  induction l with
  | nil => intro _; exact ⟨[], rfl⟩
  | cons a l ih =>
      intro h
      rcases h a (by simp) with ⟨b, hb⟩
      rcases ih (fun x hx => h x (by simp [hx])) with ⟨bs, hbs⟩
      refine ⟨b :: bs, ?_⟩
      unfold mapExcept
      rw [hb, hbs]

theorem process_row_ok_of_parse (tf : ℚ → ℚ) (recal : Bool) (r : Row) (c v : ℚ)
    (hc : getNum r.current = .ok c) (hv : getNum r.voltage = .ok v) :
    ∃ o, process_row (some tf) recal r = .ok o := by
  by_cases hcond : (recal || r.current_cal.isNone || r.power_cal.isNone) = true
  · exact ⟨_, process_row_compute tf recal r c v hc hv hcond⟩
  · have h1 : recal = false := by
      cases recal
      · rfl
      · simp at hcond
    have h2 : ∃ cc, r.current_cal = some cc := by
      cases hcc : r.current_cal with
      | none => rw [h1, hcc] at hcond; simp at hcond
      | some cc => exact ⟨cc, rfl⟩
    have h3 : ∃ pc, r.power_cal = some pc := by
      cases hpc : r.power_cal with
      | none => rw [h1, hpc] at hcond; simp at hcond
      | some pc => exact ⟨pc, rfl⟩
    rcases h2 with ⟨cc, hcc⟩
    rcases h3 with ⟨pc, hpc⟩
    subst h1
    exact ⟨r, process_row_preserve tf r c v hc hv cc pc hcc hpc⟩

theorem find_upsert_self (l : List (String × CsvFile)) (n : String) (f : CsvFile) :
    (upsert l n f).find? (fun p => p.1 == n) = some (n, f) := by
  induction l with
  | nil => simp [upsert]
  | cons p l ih =>
      by_cases hp : p.1 = n
      · rw [upsert, if_pos hp]
        simp
      · rw [upsert, if_neg hp]
        rw [List.find?_cons_of_neg _ (by simp [hp])]
        exact ih

theorem find_upsert_preserve (n m : String) (f : CsvFile) :
    ∀ l : List (String × CsvFile), l.find? (fun p => p.1 == m) ≠ none →
      (upsert l n f).find? (fun p => p.1 == m) ≠ none := by
  by_cases hmn : n = m
  · intro l _
    subst hmn
    rw [find_upsert_self]
    simp
  · intro l
    induction l with
    | nil => intro h; simp at h
    | cons p l ih =>
        intro h
        by_cases hpn : p.1 = n
        · rw [upsert, if_pos hpn]
          rw [List.find?_cons_of_neg _ (by simp; exact fun he => hmn he)]
          by_cases hpm : p.1 = m
          · exact absurd (hpn ▸ hpm) hmn
          · rw [List.find?_cons_of_neg _ (by simp [hpm])] at h
            exact h
        · rw [upsert, if_neg hpn]
          by_cases hpm : p.1 = m
          · rw [List.find?_cons_of_pos _ (by simp [hpm])]
            simp
          · rw [List.find?_cons_of_neg _ (by simp [hpm])]
            rw [List.find?_cons_of_neg _ (by simp [hpm])] at h
            exact ih h

theorem lookupFile_writeFile_self (d : DeviceDir) (n : String) (f : CsvFile) :
    lookupFile (writeFile d n f) n = some f := by
  unfold lookupFile writeFile
  rw [find_upsert_self]

theorem lookupFile_writeFile_preserve (d : DeviceDir) (n m : String) (f : CsvFile)
    (h : lookupFile d m ≠ none) : lookupFile (writeFile d n f) m ≠ none := by
  unfold lookupFile writeFile
  unfold lookupFile at h
  cases hfind : d.csvFiles.find? (fun p => p.1 == m) with
  | none => rw [hfind] at h; simp at h
  | some p =>
      have := find_upsert_preserve n m f d.csvFiles (by rw [hfind]; simp)
      cases hfind2 : (upsert d.csvFiles n f).find? (fun p => p.1 == m) with
      | none => exact absurd hfind2 this
      | some q => simp

/-- Evaluation of one calibration step when the table is present, the
transfer function builds and every row processes. -/
theorem process_calibrate_step (now : Nat) (d : DeviceDir) (name : String)
    (file : CsvFile) (cal : CalibFile) (tf : ℚ → ℚ) (out : List Row)
    (hf : lookupFile d name = some file)
    (hcal : d.calib = some cal)
    (htf : generate_transfer_function cal.puntos_calibracion = .ok tf)
    (hout : mapExcept (process_row (some tf) (decide (file.mtime < cal.mtime)))
      file.rows = .ok out) :
    process_and_calibrate_telemetry now d name =
      .ok (writeFile d (calName name) ⟨now, out⟩) := by
  unfold process_and_calibrate_telemetry
  simp only [hf, hcal, htf, hout]

/-- C8 counterexample: on a device directory with a telemetry file but no
calibration table, the calibration pass writes the default table and
returns without producing any calibrated output file for that device —
the downstream consumer does not obtain a calibrated file on this pass. -/
theorem C8_counterexample :
    (runResult (process_and_calibrate_telemetry 9
        ⟨[("d_telemetry_part1.csv", ⟨5, []⟩)], none⟩ "d_telemetry_part1.csv")).map
      (fun d => (d.calib, lookupFile d "d_telemetry_part1_cal.csv")) =
      some (some ⟨9, default_points⟩, none) := rfl

/-- C8 (amended): when no calibration table exists, the pass synthesizes
the default identity-like table (1,1),(2,2),(3,3),(4,4) rather than
failing, but returns without writing a calibrated file: the directory's
CSV files are unchanged on that pass; a calibrated output for the device
appears only on a subsequent pass, which then succeeds against the
synthesized table. -/
theorem C8_default_calibration (now now2 : Nat) (d : DeviceDir) (name : String)
    (file : CsvFile)
    (hf : lookupFile d name = some file)
    (hc : d.calib = none)
    (hrows : ∀ r ∈ file.rows, ∃ c v, getNum r.current = .ok c ∧ getNum r.voltage = .ok v) :
    process_and_calibrate_telemetry now d name = .ok (create_default_calibration now d) ∧
    (create_default_calibration now d).calib = some ⟨now, default_points⟩ ∧
    (create_default_calibration now d).csvFiles = d.csvFiles ∧
    ∃ d2, process_and_calibrate_telemetry now2 (create_default_calibration now d) name =
        .ok d2 ∧
      lookupFile d2 (calName name) ≠ none := by
  refine ⟨?_, rfl, rfl, ?_⟩
  · unfold process_and_calibrate_telemetry
    simp only [hf, hc]
  · have hf2 : lookupFile (create_default_calibration now d) name = some file := hf
    have htf : generate_transfer_function
        (CalibFile.mk now default_points).puntos_calibracion =
        .ok (interp1dE [(1, 1), (2, 2), (3, 3), (4, 4)]) := rfl
    have hrows2 : ∀ r ∈ file.rows, ∃ o,
        process_row (some (interp1dE [(1, 1), (2, 2), (3, 3), (4, 4)]))
          (decide (file.mtime < (CalibFile.mk now default_points).mtime)) r = .ok o := by
      intro r hr
      rcases hrows r hr with ⟨c, v, hgc, hgv⟩
      exact process_row_ok_of_parse _ _ r c v hgc hgv
    rcases mapExcept_ok_exists hrows2 with ⟨out, hout⟩
    refine ⟨writeFile (create_default_calibration now d) (calName name) ⟨now2, out⟩, ?_, ?_⟩
    · exact process_calibrate_step now2 (create_default_calibration now d) name file
        ⟨now, default_points⟩ _ out hf2 rfl htf hout
    · rw [lookupFile_writeFile_self]
      simp

/-- C8 witness: the amended theorem applied to a directory with one empty
telemetry file and no calibration table. -/
theorem C8_witness :
    process_and_calibrate_telemetry 9
        (DeviceDir.mk [("d_telemetry_part1.csv", ⟨5, []⟩)] none) "d_telemetry_part1.csv" =
      .ok (create_default_calibration 9
        (DeviceDir.mk [("d_telemetry_part1.csv", ⟨5, []⟩)] none)) ∧
    (create_default_calibration 9
        (DeviceDir.mk [("d_telemetry_part1.csv", ⟨5, []⟩)] none)).calib =
      some ⟨9, default_points⟩ ∧
    (create_default_calibration 9
        (DeviceDir.mk [("d_telemetry_part1.csv", ⟨5, []⟩)] none)).csvFiles =
      (DeviceDir.mk [("d_telemetry_part1.csv", ⟨5, []⟩)] none).csvFiles ∧
    ∃ d2, process_and_calibrate_telemetry 11
        (create_default_calibration 9
          (DeviceDir.mk [("d_telemetry_part1.csv", ⟨5, []⟩)] none))
        "d_telemetry_part1.csv" = .ok d2 ∧
      lookupFile d2 (calName "d_telemetry_part1.csv") ≠ none :=
  C8_default_calibration 9 11 (DeviceDir.mk [("d_telemetry_part1.csv", ⟨5, []⟩)] none)
    "d_telemetry_part1.csv" ⟨5, []⟩ rfl rfl (fun r hr => absurd hr (List.not_mem_nil r))

/-! ## Claim C10: calibration output files feed back into the glob -/

theorem step_calib_some (now : Nat) (d d2 : DeviceDir) (n : String)
    (h : process_and_calibrate_telemetry now d n = .ok d2) (hc : d.calib ≠ none) :
    d2.calib ≠ none := by
  unfold process_and_calibrate_telemetry at h
  cases hf : lookupFile d n with
  | none =>
      simp only [hf] at h
      cases h
      exact hc
  | some file =>
      simp only [hf] at h
      cases hcal : d.calib with
      | none => exact absurd hcal hc
      | some cal =>
          simp only [hcal] at h
          cases htf : generate_transfer_function cal.puntos_calibracion with
          | error e =>
              simp only [htf] at h
              exact Except.noConfusion h
          | ok tf =>
              simp only [htf] at h
              cases hout : mapExcept (process_row (some tf) (decide (file.mtime < cal.mtime)))
                  file.rows with
              | error e =>
                  simp only [hout] at h
                  exact Except.noConfusion h
              | ok out =>
                  simp only [hout] at h
                  cases h
                  show d.calib ≠ none
                  exact hc

theorem step_preserves_file (now : Nat) (d d2 : DeviceDir) (n m : String)
    (h : process_and_calibrate_telemetry now d n = .ok d2)
    (hm : lookupFile d m ≠ none) : lookupFile d2 m ≠ none := by
  unfold process_and_calibrate_telemetry at h
  cases hf : lookupFile d n with
  | none =>
      simp only [hf] at h
      cases h
      exact hm
  | some file =>
      simp only [hf] at h
      cases hcal : d.calib with
      | none =>
          simp only [hcal] at h
          cases h
          exact hm
      | some cal =>
          simp only [hcal] at h
          cases htf : generate_transfer_function cal.puntos_calibracion with
          | error e =>
              simp only [htf] at h
              exact Except.noConfusion h
          | ok tf =>
              simp only [htf] at h
              cases hout : mapExcept (process_row (some tf) (decide (file.mtime < cal.mtime)))
                  file.rows with
              | error e =>
                  simp only [hout] at h
                  exact Except.noConfusion h
              | ok out =>
                  simp only [hout] at h
                  cases h
                  exact lookupFile_writeFile_preserve d (calName n) m ⟨now, out⟩ hm

theorem step_produces (now : Nat) (d d2 : DeviceDir) (n : String)
    (h : process_and_calibrate_telemetry now d n = .ok d2)
    (hn : lookupFile d n ≠ none) (hc : d.calib ≠ none) :
    lookupFile d2 (calName n) ≠ none := by
  unfold process_and_calibrate_telemetry at h
  cases hf : lookupFile d n with
  | none => exact absurd hf hn
  | some file =>
      simp only [hf] at h
      cases hcal : d.calib with
      | none => exact absurd hcal hc
      | some cal =>
          simp only [hcal] at h
          cases htf : generate_transfer_function cal.puntos_calibracion with
          | error e =>
              simp only [htf] at h
              exact Except.noConfusion h
          | ok tf =>
              simp only [htf] at h
              cases hout : mapExcept (process_row (some tf) (decide (file.mtime < cal.mtime)))
                  file.rows with
              | error e =>
                  simp only [hout] at h
                  exact Except.noConfusion h
              | ok out =>
                  simp only [hout] at h
                  cases h
                  rw [lookupFile_writeFile_self]
                  simp

theorem processList_preserves_file (now : Nat) :
    ∀ (l : List String) (d d2 : DeviceDir) (m : String),
      processList now d l = .ok d2 → lookupFile d m ≠ none → lookupFile d2 m ≠ none := by
  intro l
  induction l with
  | nil =>
      intro d d2 m h hm
      unfold processList at h
      cases h
      exact hm
  | cons a l ih =>
      intro d d2 m h hm
      unfold processList at h
      cases hstep : process_and_calibrate_telemetry now d a with
      | error e =>
          rw [hstep] at h
          exact Except.noConfusion h
      | ok dm =>
          rw [hstep] at h
          exact ih dm d2 m h (step_preserves_file now d dm a m hstep hm)

theorem processList_produces (now : Nat) :
    ∀ (l : List String) (d d2 : DeviceDir) (n : String),
      n ∈ l → d.calib ≠ none → lookupFile d n ≠ none →
      processList now d l = .ok d2 → lookupFile d2 (calName n) ≠ none := by
  intro l
  induction l with
  | nil =>
      intro d d2 n hn
      cases hn
  | cons a l ih =>
      intro d d2 n hn hc hlook h
      unfold processList at h
      cases hstep : process_and_calibrate_telemetry now d a with
      | error e =>
          rw [hstep] at h
          exact Except.noConfusion h
      | ok dm =>
          rw [hstep] at h
          rcases List.mem_cons.mp hn with heq | hmem
          · subst heq
            exact processList_preserves_file now l dm d2 (calName n) h
              (step_produces now d dm n hstep hlook hc)
          · exact ih dm d2 n hmem (step_calib_some now d dm a hstep hc)
              (step_preserves_file now d dm a n hstep hlook) h

theorem mem_names_of_lookup (d : DeviceDir) (name : String)
    (h : lookupFile d name ≠ none) : name ∈ d.csvFiles.map Prod.fst := by
  unfold lookupFile at h
  cases hfind : d.csvFiles.find? (fun p => p.1 == name) with
  | none => rw [hfind] at h; simp at h
  | some p =>
      have hmem := List.mem_of_find?_eq_some hfind
      have hpred := List.find?_some hfind
      simp only [beq_iff_eq] at hpred
      rw [← hpred]
      exact List.mem_map_of_mem _ hmem

/-- C10 counterexample: in a device directory that contains only the
calibrated file `X_cal.csv` and no calibration table, the run synthesizes
`calibracion.json` and returns before writing any output, so no
`X_cal_cal.csv` appears; the claim is therefore false for that directory. -/
theorem C10_counterexample :
    (runResult (calibrate_device 100 "d"
        (DeviceDir.mk [("d_telemetry_part1_cal.csv", ⟨5, []⟩)] none))).map
      (fun d => (lookupFile d "d_telemetry_part1_cal_cal.csv", d.calib)) =
      some (none, some ⟨100, default_points⟩) := rfl

/-- C10 (amended): the glob `<device>_telemetry*.csv` of
`calibrate_telemetries` also matches previously generated `*_cal.csv`
outputs, and each output is named by replacing `.csv` with `_cal.csv`;
for every device directory that contains a matching file `X_cal.csv` and
whose calibration table file exists, a successful calibration run
additionally produces `X_cal_cal.csv` instead of leaving the set of output
files unchanged. -/
theorem C10_second_run (now : Nat) (deviceName : String) (d d2 : DeviceDir)
    (name : String)
    (hf : lookupFile d name ≠ none)
    (hg : matchesTelemetryGlob deviceName name = true)
    (hc : d.calib ≠ none)
    (hrun : calibrate_device now deviceName d = .ok d2) :
    lookupFile d2 (calName name) ≠ none := by
  unfold calibrate_device at hrun
  apply processList_produces now _ d d2 name ?_ hc hf hrun
  rw [mem_sortLeBy, List.mem_filter]
  exact ⟨mem_names_of_lookup d name hf, hg⟩

/-- C10 witness: the theorem applied to a directory holding
`d_telemetry_part1_cal.csv` and a calibration table: the run produces
`d_telemetry_part1_cal_cal.csv`. -/
theorem C10_witness :
    lookupFile (DeviceDir.mk
        [("d_telemetry_part1_cal.csv", ⟨5, []⟩),
         ("d_telemetry_part1_cal_cal.csv", ⟨7, []⟩)]
        (some ⟨3, default_points⟩))
      "d_telemetry_part1_cal_cal.csv" ≠ none :=
  C10_second_run 7 "d"
    (DeviceDir.mk [("d_telemetry_part1_cal.csv", ⟨5, []⟩)] (some ⟨3, default_points⟩))
    (DeviceDir.mk
      [("d_telemetry_part1_cal.csv", ⟨5, []⟩),
       ("d_telemetry_part1_cal_cal.csv", ⟨7, []⟩)]
      (some ⟨3, default_points⟩))
    "d_telemetry_part1_cal.csv"
    (fun h => Option.noConfusion h)
    rfl
    (fun h => Option.noConfusion h)
    rfl

/-! ## Claim C9: shrinking-window remote purge (modelled from the spec) -/

theorem subWindows_eq (L s e : Nat) :
    subWindows L s e =
      if L = 0 then [(s, e)]
      else if e + 1 - s ≤ L then [(s, e)]
      else (s, s + L - 1) :: subWindows L (s + L) e := by
  rw [subWindows]

theorem purgeLevel_nil (ok : Nat → Nat → Bool) (seq : List Nat) :
    purgeLevel ok seq [] = [] := by
  rw [purgeLevel.eq_def]

theorem purgeLevel_cons (ok : Nat → Nat → Bool) (seq : List Nat) (w0 : Nat × Nat)
    (ws : List (Nat × Nat)) :
    purgeLevel ok seq (w0 :: ws) =
      (if ok w0.1 w0.2 then [w0]
       else match seq with
         | [] => []
         | d :: rest => purgeLevel ok rest (subWindows (d * msPerDay) w0.1 w0.2)) ++
        purgeLevel ok seq ws := by
  rw [purgeLevel.eq_def]

theorem subWindows_memN (L : Nat) :
    ∀ (n : Nat), ∀ s e, e + 1 - s ≤ n → ∀ w ∈ subWindows L s e,
      s ≤ w.1 ∧ w.2 ≤ e ∧ (L ≠ 0 → w.2 + 1 - w.1 ≤ L) := by
  intro n
  induction n with
  | zero =>
      intro s e hn w hw
      rw [subWindows_eq] at hw
      by_cases hL : L = 0
      · rw [if_pos hL] at hw
        simp at hw
        subst hw
        exact ⟨le_refl _, le_refl _, fun h => absurd hL h⟩
      · rw [if_neg hL, if_pos (by omega)] at hw
        simp at hw
        subst hw
        exact ⟨le_refl _, le_refl _, fun _ => by omega⟩
  | succ n ihn =>
      intro s e hn w hw
      rw [subWindows_eq] at hw
      by_cases hL : L = 0
      · rw [if_pos hL] at hw
        simp at hw
        subst hw
        exact ⟨le_refl _, le_refl _, fun h => absurd hL h⟩
      · rw [if_neg hL] at hw
        by_cases hfit : e + 1 - s ≤ L
        · rw [if_pos hfit] at hw
          simp at hw
          subst hw
          exact ⟨le_refl _, le_refl _, fun _ => by omega⟩
        · rw [if_neg hfit] at hw
          rcases List.mem_cons.mp hw with heq | hmem
          · subst heq
            refine ⟨le_refl _, by omega, fun _ => by omega⟩
          · have := ihn (s + L) e (by omega) w hmem
            exact ⟨by omega, this.2.1, this.2.2⟩

theorem subWindows_mem (L s e : Nat) (w : Nat × Nat) (hw : w ∈ subWindows L s e) :
    s ≤ w.1 ∧ w.2 ≤ e ∧ (L ≠ 0 → w.2 + 1 - w.1 ≤ L) :=
  subWindows_memN L (e + 1 - s) s e (le_refl _) w hw

theorem subWindows_coverN (L : Nat) :
    ∀ (n : Nat), ∀ s e t, e + 1 - s ≤ n → s ≤ t → t ≤ e →
      ∃ w ∈ subWindows L s e, w.1 ≤ t ∧ t ≤ w.2 := by
  intro n
  induction n with
  | zero => intro s e t hn h1 h2; omega
  | succ n ihn =>
      intro s e t hn h1 h2
      rw [subWindows_eq]
      by_cases hL : L = 0
      · rw [if_pos hL]
        exact ⟨(s, e), by simp, h1, h2⟩
      · rw [if_neg hL]
        by_cases hfit : e + 1 - s ≤ L
        · rw [if_pos hfit]
          exact ⟨(s, e), by simp, h1, h2⟩
        · rw [if_neg hfit]
          by_cases ht : t ≤ s + L - 1
          · exact ⟨(s, s + L - 1), by simp, h1, ht⟩
          · rcases ihn (s + L) e t (by omega) (by omega) h2 with ⟨w, hwmem, hwa, hwb⟩
            exact ⟨w, by simp [hwmem], hwa, hwb⟩

theorem subWindows_cover (L s e t : Nat) (h1 : s ≤ t) (h2 : t ≤ e) :
    ∃ w ∈ subWindows L s e, w.1 ≤ t ∧ t ≤ w.2 :=
  subWindows_coverN L (e + 1 - s) s e t (le_refl _) h1 h2

theorem purgeLevel_mem_of_ok (ok : Nat → Nat → Bool) (seq : List Nat) :
    ∀ ws w, w ∈ ws → ok w.1 w.2 = true → w ∈ purgeLevel ok seq ws := by
  intro ws
  induction ws with
  | nil => intro w hw; cases hw
  | cons w0 ws ih =>
      intro w hw hok
      rw [purgeLevel_cons]
      rcases List.mem_cons.mp hw with heq | hmem
      · subst heq
        rw [if_pos hok]
        exact List.mem_append_left _ (by simp)
      · exact List.mem_append_right _ (ih w hmem hok)

theorem purgeLevel_sound (ok : Nat → Nat → Bool) :
    ∀ (seq : List Nat) (ws : List (Nat × Nat)) (w : Nat × Nat), w ∈ purgeLevel ok seq ws →
      ok w.1 w.2 = true ∧ ∃ w0 ∈ ws, w0.1 ≤ w.1 ∧ w.2 ≤ w0.2 := by
  intro seq
  induction seq with
  | nil =>
      intro ws
      induction ws with
      | nil =>
          intro w hw
          rw [purgeLevel_nil] at hw
          cases hw
      | cons w0 ws ihw =>
          intro w hw
          rw [purgeLevel_cons] at hw
          rcases List.mem_append.mp hw with hleft | hright
          · by_cases hok0 : ok w0.1 w0.2 = true
            · rw [if_pos hok0] at hleft
              simp at hleft
              subst hleft
              exact ⟨hok0, w, by simp, le_refl _, le_refl _⟩
            · rw [if_neg hok0] at hleft
              cases hleft
          · rcases ihw w hright with ⟨hokw, w1, hw1, ha, hb⟩
            exact ⟨hokw, w1, by simp [hw1], ha, hb⟩
  | cons dd rest ihseq =>
      intro ws
      induction ws with
      | nil =>
          intro w hw
          rw [purgeLevel_nil] at hw
          cases hw
      | cons w0 ws ihw =>
          intro w hw
          rw [purgeLevel_cons] at hw
          rcases List.mem_append.mp hw with hleft | hright
          · by_cases hok0 : ok w0.1 w0.2 = true
            · rw [if_pos hok0] at hleft
              simp at hleft
              subst hleft
              exact ⟨hok0, w, by simp, le_refl _, le_refl _⟩
            · rw [if_neg hok0] at hleft
              rcases ihseq (subWindows (dd * msPerDay) w0.1 w0.2) w hleft with
                ⟨hokw, w1, hw1, ha, hb⟩
              have hsw := subWindows_mem (dd * msPerDay) w0.1 w0.2 w1 hw1
              exact ⟨hokw, w0, by simp, le_trans hsw.1 ha, le_trans hb hsw.2.1⟩
          · rcases ihw w hright with ⟨hokw, w1, hw1, ha, hb⟩
            exact ⟨hokw, w1, by simp [hw1], ha, hb⟩

theorem purgeLevel_cover (ok : Nat → Nat → Bool)
    (hok : ∀ a b, a ≤ b → b + 1 - a ≤ msPerDay → ok a b = true) :
    ∀ (seq : List Nat), (∀ dd ∈ seq, dd ≠ 0) → 1 ∈ seq →
      ∀ (ws : List (Nat × Nat)) (t : Nat), (∃ w0 ∈ ws, w0.1 ≤ t ∧ t ≤ w0.2) →
      ∃ w ∈ purgeLevel ok seq ws, w.1 ≤ t ∧ t ≤ w.2 := by
  intro seq
  induction seq with
  | nil => intro _ h1; cases h1
  | cons dd rest ihseq =>
      intro hne h1 ws
      induction ws with
      | nil =>
          intro t hw0
          rcases hw0 with ⟨w0, hmem, _⟩
          cases hmem
      | cons w0 ws ihw =>
          intro t hw0
          rcases hw0 with ⟨w1, hw1mem, hw1a, hw1b⟩
          rcases List.mem_cons.mp hw1mem with heq | hmem
          · subst heq
            by_cases hok0 : ok w1.1 w1.2 = true
            · refine ⟨w1, ?_, hw1a, hw1b⟩
              rw [purgeLevel_cons, if_pos hok0]
              exact List.mem_append_left _ (by simp)
            · rcases subWindows_cover (dd * msPerDay) w1.1 w1.2 t hw1a hw1b with
                ⟨w2, hw2mem, hw2a, hw2b⟩
              have hdd : dd ≠ 0 := hne dd (by simp)
              have hLne : dd * msPerDay ≠ 0 := by
                have : msPerDay ≠ 0 := by decide
                positivity
              rcases List.mem_cons.mp h1 with hd1 | h1rest
              · have hspan := (subWindows_mem (dd * msPerDay) w1.1 w1.2 w2 hw2mem).2.2 hLne
                have hspan2 : w2.2 + 1 - w2.1 ≤ msPerDay := by
                  rw [← hd1] at hspan
                  simpa using hspan
                have hokw2 : ok w2.1 w2.2 = true :=
                  hok _ _ (le_trans hw2a hw2b) hspan2
                refine ⟨w2, ?_, hw2a, hw2b⟩
                rw [purgeLevel_cons, if_neg hok0]
                exact List.mem_append_left _
                  (purgeLevel_mem_of_ok ok rest _ w2 hw2mem hokw2)
              · rcases ihseq (fun d hd => hne d (by simp [hd])) h1rest
                  (subWindows (dd * msPerDay) w1.1 w1.2) t ⟨w2, hw2mem, hw2a, hw2b⟩ with
                  ⟨w3, hw3mem, hw3a, hw3b⟩
                refine ⟨w3, ?_, hw3a, hw3b⟩
                rw [purgeLevel_cons, if_neg hok0]
                exact List.mem_append_left _ hw3mem
          · rcases ihw t ⟨w1, hmem, hw1a, hw1b⟩ with ⟨w3, hw3mem, hw3a, hw3b⟩
            refine ⟨w3, ?_, hw3a, hw3b⟩
            rw [purgeLevel_cons]
            exact List.mem_append_right _ hw3mem

/-- C9: Modelled from the spec (the repository has no remote purge code in
`descargar_v0.py`; §4.6 of the spec specifies it).  The purge of an
archived window `[s, e]` attempts the full window first (a granted full
window is deleted in one shot); every window it deletes is granted by the
remote and lies inside `[s, e]`; when the remote grants every window of at
most one day, the deleted windows cover every millisecond of `[s, e]`
(the shrink sequence 30, 15, 7, 3, 1 ends at one day); and applying the
purge never touches the local archive. -/
theorem C9_shrinking_purge (ok : Nat → Nat → Bool) (s e : Nat) (st : SyncState)
    (hok : ∀ a b, a ≤ b → b + 1 - a ≤ msPerDay → ok a b = true) :
    (ok s e = true → purge ok s e = [(s, e)]) ∧
    (∀ w ∈ purge ok s e, ok w.1 w.2 = true ∧ s ≤ w.1 ∧ w.2 ≤ e) ∧
    (∀ t, s ≤ t → t ≤ e → ∃ w ∈ purge ok s e, w.1 ≤ t ∧ t ≤ w.2) ∧
    (apply_purge ok s e st).archive = st.archive := by
  refine ⟨?_, ?_, ?_, rfl⟩
  · intro h0
    unfold purge
    rw [purgeLevel_cons, purgeLevel_nil]
    simp [h0]
  · intro w hw
    rcases purgeLevel_sound ok shrink_days [(s, e)] w hw with ⟨hokw, w0, hw0, ha, hb⟩
    simp at hw0
    subst hw0
    exact ⟨hokw, ha, hb⟩
  · intro t h1 h2
    exact purgeLevel_cover ok hok shrink_days (by decide) (by decide)
      [(s, e)] t ⟨(s, e), by simp, h1, h2⟩

/-- C9 witness: the theorem applied to a remote that accepts only windows
of at most one day, over a two-day range. -/
theorem C9_witness :
    (∀ w ∈ purge (fun a b => decide (b + 1 - a ≤ msPerDay)) 0 (2 * msPerDay),
      (fun a b => decide (b + 1 - a ≤ msPerDay)) w.1 w.2 = true ∧
        0 ≤ w.1 ∧ w.2 ≤ 2 * msPerDay) ∧
    (∃ w ∈ purge (fun a b => decide (b + 1 - a ≤ msPerDay)) 0 (2 * msPerDay),
      w.1 ≤ msPerDay ∧ msPerDay ≤ w.2) ∧
    (apply_purge (fun a b => decide (b + 1 - a ≤ msPerDay)) 0 (2 * msPerDay)
      (SyncState.mk [] [⟨"k", 5, "1"⟩])).archive = [] := by
  have H := C9_shrinking_purge (fun a b => decide (b + 1 - a ≤ msPerDay)) 0 (2 * msPerDay)
    (SyncState.mk [] [⟨"k", 5, "1"⟩]) (fun a b h1 h2 => decide_eq_true h2)
  exact ⟨H.2.1, H.2.2.1 msPerDay (Nat.zero_le _) (by omega), H.2.2.2⟩

/-! ## Claim C3: pagination loop -/

theorem pageStartsN (store : List Sample) (keys : List String) (lim e : Nat) :
    ∀ (n s : Nat), e + 1 - s ≤ n → s ≤ e →
      ((pageStarts store keys lim e s).head? = some s) ∧
      List.Chain' (fun a b => fetchGrouped store keys lim a e ≠ [] ∧
        b = batchMax (fetchGrouped store keys lim a e) + 1 ∧ a < b)
        (pageStarts store keys lim e s) ∧
      (∀ x ∈ pageStarts store keys lim e s, x ≤ e) ∧
      (∀ l, (pageStarts store keys lim e s).getLast? = some l →
        fetchGrouped store keys lim l e = [] ∨
          e < batchMax (fetchGrouped store keys lim l e) + 1) := by
  intro n
  induction n with
  | zero => intro s h1 h2; omega
  | succ n ihn =>
      intro s h1 h2
      rw [pageStarts]
      rw [if_neg (not_lt.mpr h2)]
      by_cases hf : fetchGrouped store keys lim s e = []
      · rw [dif_pos hf]
        refine ⟨rfl, by simp, ?_, ?_⟩
        · intro x hx
          simp at hx
          subst hx
          exact h2
        · intro l hl
          simp at hl
          subst hl
          exact Or.inl hf
      · rw [dif_neg hf]
        have hge : s ≤ batchMax (fetchGrouped store keys lim s e) := batchMax_ge hf
        by_cases hm : batchMax (fetchGrouped store keys lim s e) + 1 ≤ e
        · have IH := ihn (batchMax (fetchGrouped store keys lim s e) + 1) (by omega) hm
          refine ⟨rfl, ?_, ?_, ?_⟩
          · rw [List.chain'_cons']
            refine ⟨?_, IH.2.1⟩
            intro b hb2
            rw [IH.1] at hb2
            simp at hb2
            subst hb2
            exact ⟨hf, rfl, by omega⟩
          · intro x hx
            rcases List.mem_cons.mp hx with heq | hx2
            · subst heq
              exact h2
            · exact IH.2.2.1 x hx2
          · intro l hl
            cases hps : pageStarts store keys lim e
                (batchMax (fetchGrouped store keys lim s e) + 1) with
            | nil => rw [hps] at IH; simp at IH
            | cons a rest =>
                rw [hps] at hl
                rw [List.getLast?_cons_cons] at hl
                have := IH.2.2.2 l
                rw [hps] at this
                exact this hl
        · have hnil : pageStarts store keys lim e
              (batchMax (fetchGrouped store keys lim s e) + 1) = [] := by
            rw [pageStarts]
            rw [if_pos (by omega)]
          rw [hnil]
          refine ⟨rfl, by simp, ?_, ?_⟩
          · intro x hx
            simp at hx
            subst hx
            exact h2
          · intro l hl
            simp at hl
            subst hl
            exact Or.inr (by omega)

/-- C3: for a window with `s ≤ e`, the pagination loop's requests start at
`s`; every consecutive request pair satisfies: the earlier request
returned samples and the next start is the largest timestamp observed in
that response plus one (a strict advance); every request start lies within
the window; and the final request is exactly the one that either returned
no samples or advanced past `end_ts`. -/
theorem C3_pagination (store : List Sample) (keys : List String) (lim e s : Nat)
    (h : s ≤ e) :
    ((pageStarts store keys lim e s).head? = some s) ∧
    List.Chain' (fun a b => fetchGrouped store keys lim a e ≠ [] ∧
      b = batchMax (fetchGrouped store keys lim a e) + 1 ∧ a < b)
      (pageStarts store keys lim e s) ∧
    (∀ x ∈ pageStarts store keys lim e s, x ≤ e) ∧
    (∀ l, (pageStarts store keys lim e s).getLast? = some l →
      fetchGrouped store keys lim l e = [] ∨
        e < batchMax (fetchGrouped store keys lim l e) + 1) :=
  pageStartsN store keys lim e (e + 1 - s) s (le_refl _) h

/-- C3 witness: the theorem applied to the one-sample store over the
window [1000, 1000] with the source's row limit. -/
theorem C3_witness :
    ((pageStarts store1 ["k"] 10000 1000 1000).head? = some 1000) ∧
    List.Chain' (fun a b => fetchGrouped store1 ["k"] 10000 a 1000 ≠ [] ∧
      b = batchMax (fetchGrouped store1 ["k"] 10000 a 1000) + 1 ∧ a < b)
      (pageStarts store1 ["k"] 10000 1000 1000) ∧
    (∀ x ∈ pageStarts store1 ["k"] 10000 1000 1000, x ≤ 1000) ∧
    (∀ l, (pageStarts store1 ["k"] 10000 1000 1000).getLast? = some l →
      fetchGrouped store1 ["k"] 10000 l 1000 = [] ∨
        1000 < batchMax (fetchGrouped store1 ["k"] 10000 l 1000) + 1) :=
  C3_pagination store1 ["k"] 10000 1000 1000 (by decide)

/-! ## Claims C1 and C2: idempotence and archive monotonicity -/

theorem runLoop_stop1 (store : List Sample) (keys : List String) (lim e s : Nat)
    (ad : TsMap) (file : List OutRow) (he : e < s) :
    runLoop store keys lim e s ad file = file := by
  rw [runLoop.eq_def]
  rw [if_pos he]

theorem runLoop_stop2 (store : List Sample) (keys : List String) (lim e s : Nat)
    (ad : TsMap) (file : List OutRow) (he : ¬ e < s)
    (hf : fetchGrouped store keys lim s e = []) :
    runLoop store keys lim e s ad file = file := by
  rw [runLoop.eq_def]
  rw [if_neg he, dif_pos hf]

theorem runLoop_step (store : List Sample) (keys : List String) (lim e s : Nat)
    (ad : TsMap) (file : List OutRow) (he : ¬ e < s)
    (hf : ¬ fetchGrouped store keys lim s e = []) :
    runLoop store keys lim e s ad file =
      runLoop store keys lim e (batchMax (fetchGrouped store keys lim s e) + 1)
        (mergeBatch ad (fetchGrouped store keys lim s e))
        (file ++ sortedRows keys (mergeBatch ad (fetchGrouped store keys lim s e))) := by
  conv => lhs; rw [runLoop.eq_def]
  rw [if_neg he, dif_neg hf]

theorem runLoopN_append (store : List Sample) (keys : List String) (lim e : Nat) :
    ∀ (n s : Nat) (ad : TsMap) (file : List OutRow), e + 1 - s ≤ n →
      runLoop store keys lim e s ad file = file ++ runLoop store keys lim e s ad [] := by
  intro n
  induction n with
  | zero =>
      intro s ad file h
      have he : e < s := by omega
      rw [runLoop_stop1 store keys lim e s ad file he,
        runLoop_stop1 store keys lim e s ad [] he]
      simp
  | succ n ihn =>
      intro s ad file h
      by_cases he : e < s
      · rw [runLoop_stop1 store keys lim e s ad file he,
          runLoop_stop1 store keys lim e s ad [] he]
        simp
      · by_cases hf : fetchGrouped store keys lim s e = []
        · rw [runLoop_stop2 store keys lim e s ad file he hf,
            runLoop_stop2 store keys lim e s ad [] he hf]
          simp
        · have hge : s ≤ batchMax (fetchGrouped store keys lim s e) := batchMax_ge hf
          rw [runLoop_step store keys lim e s ad file he hf,
            runLoop_step store keys lim e s ad [] he hf]
          rw [ihn (batchMax (fetchGrouped store keys lim s e) + 1)
            (mergeBatch ad (fetchGrouped store keys lim s e))
            (file ++ sortedRows keys (mergeBatch ad (fetchGrouped store keys lim s e)))
            (by omega)]
          rw [ihn (batchMax (fetchGrouped store keys lim s e) + 1)
            (mergeBatch ad (fetchGrouped store keys lim s e))
            ([] ++ sortedRows keys (mergeBatch ad (fetchGrouped store keys lim s e)))
            (by omega)]
          simp

theorem runLoop_append (store : List Sample) (keys : List String) (lim e s : Nat)
    (ad : TsMap) (file : List OutRow) :
    runLoop store keys lim e s ad file = file ++ runLoop store keys lim e s ad [] :=
  runLoopN_append store keys lim e (e + 1 - s) s ad file (le_refl _)

theorem runLoop_store1_eval :
    runLoop store1 ["k"] 10000 1000 1000 [] [] = [(1, [("k", "5")])] := by
  have hfe : fetchGrouped store1 ["k"] 10000 1000 1000 = [("k", [(1000, "5")])] := by decide
  have hne : ¬ fetchGrouped store1 ["k"] 10000 1000 1000 = [] := by rw [hfe]; simp
  rw [runLoop_step store1 ["k"] 10000 1000 1000 [] [] (by decide) hne]
  rw [hfe]
  rw [show batchMax [("k", [(1000, "5")])] + 1 = 1001 from by decide]
  rw [show mergeBatch [] [("k", [(1000, "5")])] = [(1000, [("k", "5")])] from by decide]
  rw [show sortedRows ["k"] [(1000, [("k", "5")])] = [(1, [("k", "5")])] from by decide]
  rw [runLoop_stop1 store1 ["k"] 10000 1000 1001 [(1000, [("k", "5")])]
    ([] ++ [(1, [("k", "5")])]) (by decide)]
  simp

/-- On the one-sample store, one run starting from an empty archive writes
exactly one row (rendered at second precision). -/
theorem download_store1_eval :
    download_telemetries store1 ["k"] now0 [] = [(1, [("k", "5")])] := by
  unfold download_telemetries
  rw [show get_time_range store1 ["k"] now0 = some (1000, 1000) from by decide]
  show runLoop store1 ["k"] 10000 1000 1000 [] [] = [(1, [("k", "5")])]
  exact runLoop_store1_eval

/-- On the one-sample store, a second run over the already-written archive
appends the same row again. -/
theorem download_store1_eval2 :
    download_telemetries store1 ["k"] now0 [(1, [("k", "5")])] =
      [(1, [("k", "5")]), (1, [("k", "5")])] := by
  unfold download_telemetries
  rw [show get_time_range store1 ["k"] now0 = some (1000, 1000) from by decide]
  show runLoop store1 ["k"] 10000 1000 1000 [] [(1, [("k", "5")])] =
    [(1, [("k", "5")]), (1, [("k", "5")])]
  rw [runLoop_append store1 ["k"] 10000 1000 1000 [] [(1, [("k", "5")])]]
  rw [runLoop_store1_eval]
  rfl

/-- C1 counterexample: running the download twice in succession over an
unchanged remote dataset does not reproduce the single-run archive — the
second run appends every row again (the resolved window comes from the
remote probe, not from the last-recorded local timestamp plus one). -/
theorem C1_counterexample :
    download_telemetries store1 ["k"] now0 (download_telemetries store1 ["k"] now0 []) ≠
      download_telemetries store1 ["k"] now0 [] := by
  rw [download_store1_eval, download_store1_eval2]
  decide

/-- C1 (amended): the resolved ingestion window of `download_telemetries`
is independent of the local archive (the resolver is `get_time_range`, a
remote probe, and `get_last_telemetry_timestamp` is never consulted), so a
re-run over the same remote data appends the full fresh output again:
the archive after a run equals the prior archive followed by the rows a
run from an empty archive writes.  Re-running therefore duplicates rows
rather than being idempotent. -/
theorem C1_rerun_appends (store : List Sample) (keys : List String) (now : Nat)
    (archive : List OutRow) :
    download_telemetries store keys now archive =
      archive ++ download_telemetries store keys now [] := by
  unfold download_telemetries
  cases hr : get_time_range store keys now with
  | none => simp
  | some p =>
      cases p with
      | mk s e => exact runLoop_append store keys 10000 e s [] archive

/-- C2 counterexample: the archive written by two successive runs over the
one-sample store contains the same timestamp row twice, violating the
no-duplicate-timestamp invariant (the write block re-appends the
cumulative table on every pagination iteration and every run). -/
theorem C2_counterexample :
    ¬ List.Pairwise (fun a b : OutRow => a.1 ≠ b.1)
      (download_telemetries store1 ["k"] now0
        (download_telemetries store1 ["k"] now0 [])) := by
  rw [download_store1_eval, download_store1_eval2]
  decide

/-- C2 (amended): within one write block of the pagination loop the rows
are sorted by timestamp, so rendered timestamps are non-decreasing from
top to bottom of the block; but because each iteration re-appends the
whole accumulated table and a re-run appends anew, duplicate timestamp
rows do occur across appends within a device's history. -/
theorem C2_write_block_monotone (keys : List String) (m : TsMap) :
    List.Pairwise (fun a b : OutRow => a.1 ≤ b.1) (sortedRows keys m) := by
  unfold sortedRows
  rw [List.pairwise_map]
  exact pairwise_sortLeBy (r := fun a b : Nat => a / 1000 ≤ b / 1000) Nat.ble
    (fun a b hle => Nat.div_le_div_right (Nat.le_of_ble_eq_true hle))
    (fun a b hfalse => Nat.div_le_div_right
      (le_of_lt (by
        have : ¬ a ≤ b := by
          intro hab
          rw [Nat.ble_eq_true_of_le hab] at hfalse
          cases hfalse
        omega)))
    (fun a b c h1 h2 => le_trans h1 h2) _

end Descarga

